import Mathlib

set_option maxRecDepth 8000

/-!
Verification of the voice_capture incremental-transcription pipeline.

The definitions below are shallow embeddings of the Python source:
`transcription_utils.remove_overlap` (identical to
`TranscriptionApp.remove_overlap` in `main.py`), the segmenter loop in
`audio_recorder.AudioRecorder.start_recording.record`, the finalizer in
`main.TranscriptionApp` (`check_and_finalize_recording`,
`finalize_recording`, `combine_segment_transcriptions`), the worker
(`transcribe_next_segment`, `on_segment_transcribed`, `on_model_loaded`),
and the ISO-8601 duration helpers in `recording_manager.py`.

Strings are modelled with Lean `String` (a list of unicode characters,
matching Python's code-point semantics for the ASCII data handled here);
machine floats appear only in the similarity test `matches / k >= 0.7`
and in the duration test `frames / rate < 0.1`, both of which are exact
at the rational level for the magnitudes involved (see the comments at
`similarityOk` and `transcribe_worker`), so they are embedded as exact
integer comparisons.
-/

/-- Model of Python `str.split()` (no separator argument): splits on runs
of whitespace and discards empty pieces.  `cur` is the reversed
accumulator of the word currently being read. -/
def splitWordsAux : List Char → List Char → List String
  | [], cur => if cur = [] then [] else [String.mk cur.reverse]
  | c :: rest, cur =>
    if c.isWhitespace then
      if cur = [] then splitWordsAux rest [] else String.mk cur.reverse :: splitWordsAux rest []
    else splitWordsAux rest (c :: cur)

/-- Python `s.split()`. -/
def pySplit (s : String) : List String := splitWordsAux s.data []

/-- Python `" ".join(words)`. -/
def joinWords : List String → String
  | [] => ""
  | [w] => w
  | w :: ws => w ++ " " ++ joinWords ws

/-- Python `s.lower()`, restricted to the ASCII case mapping (the only
case-sensitive data produced by the pipeline). -/
def strToLower (s : String) : String := ⟨s.data.map Char.toLower⟩

/-- One iteration of the overlap-detection loop of `remove_overlap`:
`matches = sum(1 for p, n in zip(prev_tail, new_head) if p.lower() == n.lower())`
and the test `matches / overlap_len >= 0.7`.
Python evaluates the test on IEEE doubles; for `k ≤ 50` the rational value
`matches / k` is either exactly `7/10` (then the double quotient is exactly
the double literal `0.7`, so `>=` holds) or differs from `7/10` by at least
`1/(10*k) ≥ 0.002`, far above double rounding error, so the float test is
exactly the integer test `10 * matches ≥ 7 * k`. -/
def similarityOk (prev_words new_words : List String) (k : Nat) : Bool :=
  let prev_tail := prev_words.drop (prev_words.length - k)
  let new_head := new_words.take k
  let nMatches := ((prev_tail.zip new_head).filter
    (fun pn => strToLower pn.1 == strToLower pn.2)).length
  decide (7 * k ≤ 10 * nMatches)

/-- The loop `for overlap_len in range(max_overlap, 0, -1): ... break`:
returns the largest `k ≤ m` with `similarityOk`, or `0` when none exists
(the initial value of `best_overlap_length`). -/
def bestOverlap (prev_words new_words : List String) : Nat → Nat
  | 0 => 0
  | k + 1 =>
    if similarityOk prev_words new_words (k + 1) then k + 1
    else bestOverlap prev_words new_words k

/-- Model of `remove_overlap(previous_text, new_text)` from
`transcription_utils.py` (and its identical copy in `main.py`).
`if not previous_text or not new_text: return new_text` is the emptiness
test on the strings; `prev_words[-overlap_len:]` for `1 ≤ overlap_len ≤
len(prev_words)` is `drop (length - overlap_len)`. -/
def remove_overlap (previous_text new_text : String) : String :=
  if previous_text = "" || new_text = "" then new_text
  else
    if 0 < bestOverlap (pySplit previous_text) (pySplit new_text)
        (min 50 (min (pySplit previous_text).length (pySplit new_text).length)) then
      joinWords ((pySplit new_text).drop
        (bestOverlap (pySplit previous_text) (pySplit new_text)
          (min 50 (min (pySplit previous_text).length (pySplit new_text).length))))
    else new_text

theorem splitWordsAux_good : ∀ (cs cur : List Char),
    (∀ c ∈ cur, c.isWhitespace = false) →
    ∀ w ∈ splitWordsAux cs cur, w.data ≠ [] ∧ ∀ c ∈ w.data, c.isWhitespace = false := by
  intro cs
  induction cs with
  | nil =>
    intro cur hcur w hw
    simp only [splitWordsAux] at hw
    split at hw
    · simp at hw
    · next hne =>
      simp only [List.mem_singleton] at hw
      subst hw
      refine ⟨by simpa using hne, ?_⟩
      intro c hc
      exact hcur c (by simpa using hc)
  | cons c rest ih =>
    intro cur hcur w hw
    simp only [splitWordsAux] at hw
    split at hw
    · split at hw
      · exact ih [] (by simp) w hw
      · next hne =>
        rcases List.mem_cons.mp hw with h | h
        · subst h
          refine ⟨by simpa using hne, ?_⟩
          intro c hc
          exact hcur c (by simpa using hc)
        · exact ih [] (by simp) w h
    · next hws =>
      refine ih (c :: cur) ?_ w hw
      intro x hx
      rcases List.mem_cons.mp hx with h | h
      · subst h; simpa using hws
      · exact hcur x h

theorem pySplit_good (s : String) :
    ∀ w ∈ pySplit s, w.data ≠ [] ∧ ∀ c ∈ w.data, c.isWhitespace = false :=
  splitWordsAux_good s.data [] (by simp)

theorem splitWordsAux_nil (cur : List Char) :
    splitWordsAux [] cur = if cur = [] then [] else [String.mk cur.reverse] := rfl

theorem splitWordsAux_cons (c : Char) (rest cur : List Char) :
    splitWordsAux (c :: rest) cur =
      if c.isWhitespace then
        if cur = [] then splitWordsAux rest [] else String.mk cur.reverse :: splitWordsAux rest []
      else splitWordsAux rest (c :: cur) := rfl

theorem splitWordsAux_word : ∀ (w rest cur : List Char),
    (∀ c ∈ w, c.isWhitespace = false) →
    splitWordsAux (w ++ rest) cur = splitWordsAux rest (w.reverse ++ cur) := by
  intro w
  induction w with
  | nil => intro rest cur _; simp
  | cons c w ih =>
    intro rest cur hgood
    have hc : c.isWhitespace = false := hgood c (by simp)
    rw [List.cons_append, splitWordsAux_cons, hc]
    rw [if_neg (show ¬(false = true) by simp)]
    rw [ih rest (c :: cur) (fun x hx => hgood x (List.mem_cons_of_mem _ hx))]
    simp

theorem string_ne_empty_iff (s : String) : s ≠ "" ↔ s.data ≠ [] := by
  constructor
  · intro h h'
    apply h
    cases s with
    | mk d =>
      have hd : d = [] := h'
      subst hd
      rfl
  · intro h h'
    subst h'
    simp at h

theorem data_append (s t : String) : (s ++ t).data = s.data ++ t.data := by
  cases s; cases t; rfl

theorem pySplit_joinWords : ∀ (l : List String),
    (∀ w ∈ l, w.data ≠ [] ∧ ∀ c ∈ w.data, c.isWhitespace = false) →
    pySplit (joinWords l) = l := by
  intro l
  induction l with
  | nil => intro _; rfl
  | cons w ws ih =>
    intro hgood
    have hw := hgood w (by simp)
    cases ws with
    | nil =>
      show splitWordsAux w.data [] = [w]
      have h2 := splitWordsAux_word w.data [] [] hw.2
      rw [List.append_nil] at h2
      rw [h2, splitWordsAux_nil, if_neg (by simp [hw.1])]
      simp
    | cons v vs =>
      have hjoin : joinWords (w :: v :: vs) = w ++ " " ++ joinWords (v :: vs) := rfl
      show splitWordsAux (joinWords (w :: v :: vs)).data [] = w :: v :: vs
      rw [hjoin, data_append, data_append]
      have hsp : (" " : String).data = [' '] := rfl
      rw [hsp, List.append_assoc, splitWordsAux_word w.data _ [] hw.2]
      rw [List.singleton_append, splitWordsAux_cons]
      rw [if_pos (show (' '.isWhitespace = true) by decide)]
      rw [if_neg (by simp [hw.1])]
      have hrec : splitWordsAux (joinWords (v :: vs)).data [] = v :: vs :=
        ih (fun x hx => hgood x (List.mem_cons_of_mem _ hx))
      rw [hrec]
      simp

theorem bestOverlap_zero (P N : List String) : ∀ (m : Nat),
    (∀ k, 1 ≤ k → k ≤ m → similarityOk P N k = false) →
    bestOverlap P N m = 0 := by
  intro m
  induction m with
  | zero => intro _; rfl
  | succ m ih =>
    intro h
    simp only [bestOverlap]
    rw [if_neg (by simp [h (m + 1) (by omega) (by omega)])]
    exact ih (fun k h1 h2 => h k h1 (by omega))

theorem bestOverlap_max (P N : List String) : ∀ (m K : Nat),
    1 ≤ K → K ≤ m → similarityOk P N K = true →
    (∀ j, K < j → j ≤ m → similarityOk P N j = false) →
    bestOverlap P N m = K := by
  intro m
  induction m with
  | zero => intro K h1 h2 _ _; omega
  | succ m ih =>
    intro K h1 h2 hK hmax
    simp only [bestOverlap]
    by_cases hKm : K = m + 1
    · subst hKm
      rw [if_pos hK]
    · rw [if_neg (by simp [hmax (m + 1) (by omega) (by omega)])]
      exact ih K h1 (by omega) hK (fun j hj1 hj2 => hmax j hj1 (by omega))

/-- C1: for every pair of texts, if some candidate overlap length
`1 ≤ k ≤ min(50, |prev words|, |next words|)` reaches the 70%
case-insensitive positional word-match threshold, then `remove_overlap`
returns `next_text` with its first `K` words removed (`K` the largest such
`k`), joined by single spaces, so the returned word count is the word count
of `next_text` minus `K`; if either text is empty or no candidate reaches
the threshold, it returns `next_text` unchanged. -/
theorem remove_overlap_correct (p n : String) :
    ((p = "" ∨ n = "") → remove_overlap p n = n) ∧
    ((∀ k, 1 ≤ k → k ≤ min 50 (min (pySplit p).length (pySplit n).length) →
        similarityOk (pySplit p) (pySplit n) k = false) →
      remove_overlap p n = n) ∧
    (∀ K, 1 ≤ K → K ≤ min 50 (min (pySplit p).length (pySplit n).length) →
      similarityOk (pySplit p) (pySplit n) K = true →
      (∀ j, K < j → j ≤ min 50 (min (pySplit p).length (pySplit n).length) →
        similarityOk (pySplit p) (pySplit n) j = false) →
      remove_overlap p n = joinWords ((pySplit n).drop K) ∧
      (pySplit (remove_overlap p n)).length = (pySplit n).length - K) := by
  refine ⟨?_, ?_, ?_⟩
  · intro h
    simp only [remove_overlap]
    rw [if_pos (by rcases h with h | h <;> simp [h])]
  · intro h
    by_cases hemp : p = "" || n = ""
    · simp only [remove_overlap]; rw [if_pos hemp]
    · simp only [remove_overlap]
      rw [if_neg hemp]
      rw [if_neg (by rw [bestOverlap_zero _ _ _ h]; omega)]
  · intro K h1 h2 hK hmax
    have hbest : bestOverlap (pySplit p) (pySplit n)
        (min 50 (min (pySplit p).length (pySplit n).length)) = K :=
      bestOverlap_max _ _ _ K h1 h2 hK hmax
    have hplen : (pySplit p).length ≠ 0 := by omega
    have hnlen : (pySplit n).length ≠ 0 := by omega
    have hpne : p ≠ "" := by
      intro h; subst h; exact hplen (by rfl)
    have hnne : n ≠ "" := by
      intro h; subst h; exact hnlen (by rfl)
    have heval : remove_overlap p n = joinWords ((pySplit n).drop K) := by
      simp only [remove_overlap]
      rw [if_neg (by simp [hpne, hnne])]
      rw [hbest, if_pos (by omega)]
    refine ⟨heval, ?_⟩
    rw [heval]
    rw [pySplit_joinWords _ (fun w hw => pySplit_good n w (List.mem_of_mem_drop hw))]
    simp

/-- Witness for `remove_overlap_correct`: with `previous = "a b"` and
`next = "a b c"` the overlap `K = 2` is detected and removed. -/
theorem remove_overlap_correct_witness :
    remove_overlap "a b" "a b c" = joinWords ((pySplit "a b c").drop 2) ∧
    (pySplit (remove_overlap "a b" "a b c")).length = (pySplit "a b c").length - 2 := by
  have hmin : min 50 (min (pySplit "a b").length (pySplit "a b c").length) = 2 := by decide
  refine (remove_overlap_correct "a b" "a b c").2.2 2 (by omega) (by omega) (by decide) ?_
  intro j hj1 hj2
  rw [hmin] at hj2
  omega

/-! ## Segmenter (`audio_recorder.AudioRecorder`)

The recording thread reads fixed `CHUNK`-sample blocks and appends each to
`self.frames` (the growing window buffer) and `self.all_frames` (the whole
session).  When the buffer reaches `frames_per_segment` chunks it emits the
first `frames_per_segment` chunks as a window and keeps only the trailing
`frames_for_overlap` chunks.  Chunks are modelled as opaque values of a
type `α`; time is measured in chunks, one chunk being `CHUNK / RATE`
seconds (`1024 / 16000 = 0.064 s`). -/

/-- `self.RATE = 16000`. -/
def sampleRate : Nat := 16000

/-- `self.CHUNK = 1024`. -/
def chunkSize : Nat := 1024

/-- `frames_per_segment = int(self.RATE * self.segment_duration / self.CHUNK)`
(Python `int` truncation of a nonnegative quotient is floor division). -/
def framesPerSegment (segment_duration : Nat) : Nat :=
  sampleRate * segment_duration / chunkSize

/-- `frames_for_overlap = int(self.RATE * self.overlap_duration / self.CHUNK)`. -/
def framesForOverlap (overlap_duration : Nat) : Nat :=
  sampleRate * overlap_duration / chunkSize

/-- State of the recording loop: `self.frames`, `self.all_frames`,
`self.segment_counter`, together with the window files emitted so far (in
emission order, each the `segment_frames` passed to `save_segment`). -/
structure SegState (α : Type) where
  frames : List α
  allFrames : List α
  segmentCounter : Nat
  emitted : List (List α)
deriving DecidableEq

/-- One iteration of the `while self.is_recording` loop body in
`AudioRecorder.start_recording.record`, for one chunk `data`. -/
def recordStep (fps fov : Nat) (s : SegState α) (data : α) : SegState α :=
  let frames := s.frames ++ [data]
  let allFrames := s.allFrames ++ [data]
  if fps ≤ frames.length then
    { frames := frames.drop (fps - fov)
      allFrames := allFrames
      segmentCounter := s.segmentCounter + 1
      emitted := s.emitted ++ [frames.take fps] }
  else
    { frames := frames, allFrames := allFrames
      segmentCounter := s.segmentCounter, emitted := s.emitted }

/-- The recording loop run over a whole feed sequence, starting from the
state set up by `start_recording` (`frames = []`, `all_frames = []`,
`segment_counter = 0`). -/
def runRecord (fps fov : Nat) (inputs : List α) : SegState α :=
  inputs.foldl (recordStep fps fov) ⟨[], [], 0, []⟩

/-- Model of `stop_recording`: it only sets `is_recording = False` and
writes `b''.join(self.all_frames)` as the complete session file; it never
calls `save_segment`, so the emitted-window list is unchanged. -/
structure StopResult (α : Type) where
  sessionAudio : List α
  emittedAfterStop : List (List α)
deriving DecidableEq

def stop_recording (s : SegState α) : StopResult α := ⟨s.allFrames, s.emitted⟩

/-- Number of windows emitted after `n` chunks have been fed. -/
def windowCount (fps fov n : Nat) : Nat :=
  if n < fps then 0 else (n - fps) / (fps - fov) + 1

theorem windowCount_zero (fps fov n : Nat) (h : n < fps) :
    windowCount fps fov n = 0 := by
  simp [windowCount, h]

theorem windowCount_ge (fps fov n : Nat) (h : fps ≤ n) :
    windowCount fps fov n = (n - fps) / (fps - fov) + 1 := by
  simp [windowCount, Nat.not_lt.mpr h]

theorem wc_mul_le (fps fov n : Nat) (h2 : fov < fps) :
    windowCount fps fov n * (fps - fov) ≤ n := by
  by_cases h : n < fps
  · simp [windowCount_zero _ _ _ h]
  · push_neg at h
    rw [windowCount_ge _ _ _ h]
    have hdiv : (n - fps) / (fps - fov) * (fps - fov) ≤ n - fps :=
      Nat.div_mul_le_self _ _
    have hexp : ((n - fps) / (fps - fov) + 1) * (fps - fov)
        = (n - fps) / (fps - fov) * (fps - fov) + (fps - fov) := by ring
    rw [hexp]
    generalize (n - fps) / (fps - fov) * (fps - fov) = z at hdiv ⊢
    omega

theorem wc_buf_lt (fps fov n : Nat) (h1 : 0 < fov) (h2 : fov < fps) :
    n - windowCount fps fov n * (fps - fov) < fps := by
  by_cases h : n < fps
  · simp [windowCount_zero _ _ _ h]; omega
  · push_neg at h
    rw [windowCount_ge _ _ _ h]
    have hmod := Nat.div_add_mod (n - fps) (fps - fov)
    have hr : (n - fps) % (fps - fov) < fps - fov := Nat.mod_lt _ (by omega)
    have hexp : ((n - fps) / (fps - fov) + 1) * (fps - fov)
        = (fps - fov) * ((n - fps) / (fps - fov)) + (fps - fov) := by ring
    rw [hexp]
    generalize (fps - fov) * ((n - fps) / (fps - fov)) = z at hmod ⊢
    generalize (n - fps) % (fps - fov) = r at hmod hr
    omega

theorem wc_window_inside (fps fov n : Nat) (h2 : fov < fps) :
    ∀ j, j < windowCount fps fov n → j * (fps - fov) + fps ≤ n := by
  intro j hj
  by_cases h : n < fps
  · rw [windowCount_zero _ _ _ h] at hj; omega
  · push_neg at h
    rw [windowCount_ge _ _ _ h] at hj
    have hq : j ≤ (n - fps) / (fps - fov) := Nat.lt_succ_iff.mp hj
    have hmul : j * (fps - fov) ≤ (n - fps) / (fps - fov) * (fps - fov) :=
      Nat.mul_le_mul_right _ hq
    have hdiv : (n - fps) / (fps - fov) * (fps - fov) ≤ n - fps :=
      Nat.div_mul_le_self _ _
    generalize (n - fps) / (fps - fov) * (fps - fov) = z at hmul hdiv
    generalize j * (fps - fov) = y at hmul ⊢
    omega

theorem wc_succ_no_emit (fps fov n : Nat) (h1 : 0 < fov) (h2 : fov < fps)
    (h : n + 1 - windowCount fps fov n * (fps - fov) < fps) :
    windowCount fps fov (n + 1) = windowCount fps fov n := by
  by_cases hn : n < fps
  · rw [windowCount_zero _ _ _ hn] at h ⊢
    rw [windowCount_zero _ _ _ (by omega)]
  · push_neg at hn
    have hk := windowCount_ge fps fov n hn
    rw [hk] at h ⊢
    have hmod := Nat.div_add_mod (n - fps) (fps - fov)
    have hr : (n - fps) % (fps - fov) < fps - fov := Nat.mod_lt _ (by omega)
    have hexp : ((n - fps) / (fps - fov) + 1) * (fps - fov)
        = (fps - fov) * ((n - fps) / (fps - fov)) + (fps - fov) := by ring
    rw [hexp] at h
    have hlt : (n - fps) % (fps - fov) + 1 < fps - fov := by
      generalize (fps - fov) * ((n - fps) / (fps - fov)) = z at hmod h
      generalize (n - fps) % (fps - fov) = r at hmod hr ⊢
      omega
    rw [windowCount_ge _ _ _ (by omega)]
    have hn1 : n + 1 - fps = (fps - fov) * ((n - fps) / (fps - fov))
        + ((n - fps) % (fps - fov) + 1) := by
      generalize (fps - fov) * ((n - fps) / (fps - fov)) = z at hmod ⊢
      generalize (n - fps) % (fps - fov) = r at hmod ⊢
      omega
    rw [hn1, Nat.mul_add_div (by omega), Nat.div_eq_of_lt hlt]

theorem wc_succ_emit (fps fov n : Nat) (h1 : 0 < fov) (h2 : fov < fps)
    (h : fps ≤ n + 1 - windowCount fps fov n * (fps - fov)) :
    windowCount fps fov (n + 1) = windowCount fps fov n + 1 ∧
    n + 1 = windowCount fps fov n * (fps - fov) + fps := by
  have hle := wc_mul_le fps fov n h2
  have hbuf := wc_buf_lt fps fov n h1 h2
  have heq : n + 1 = windowCount fps fov n * (fps - fov) + fps := by omega
  refine ⟨?_, heq⟩
  by_cases hn : n < fps
  · rw [windowCount_zero _ _ _ hn] at heq ⊢
    rw [windowCount_ge _ _ _ (by omega)]
    have : n + 1 - fps = 0 := by omega
    rw [this, Nat.zero_div]
  · push_neg at hn
    have hk := windowCount_ge fps fov n hn
    rw [hk] at heq ⊢
    have hn1 : n + 1 - fps = (fps - fov) * ((n - fps) / (fps - fov) + 1) := by
      have hexp : ((n - fps) / (fps - fov) + 1) * (fps - fov)
          = (fps - fov) * ((n - fps) / (fps - fov) + 1) := by ring
      omega
    rw [windowCount_ge _ _ _ (by omega), hn1,
      Nat.mul_div_cancel_left _ (show 0 < fps - fov by omega)]

theorem runRecord_eq {α : Type} (fps fov : Nat) (h1 : 0 < fov) (h2 : fov < fps)
    (l : List α) :
    runRecord fps fov l =
      { frames := l.drop (windowCount fps fov l.length * (fps - fov)),
        allFrames := l,
        segmentCounter := windowCount fps fov l.length,
        emitted := (List.range (windowCount fps fov l.length)).map
          (fun j => (l.drop (j * (fps - fov))).take fps) } := by
  induction l using List.reverseRecOn with
  | nil =>
    have hfps : (0 : Nat) < fps := by omega
    simp [runRecord, windowCount, hfps]
  | append_singleton l x ih =>
    have hn : (l ++ [x]).length = l.length + 1 := by simp
    have hk_le := wc_mul_le fps fov l.length h2
    have hbuf := wc_buf_lt fps fov l.length h1 h2
    rw [runRecord, List.foldl_append]
    rw [show List.foldl (recordStep fps fov) ⟨[], [], 0, []⟩ l = runRecord fps fov l from rfl]
    rw [ih]
    rw [List.foldl_cons, List.foldl_nil]
    rw [recordStep]
    simp only [List.length_append, List.length_drop, List.length_cons, List.length_nil]
    have hframes : l.drop (windowCount fps fov l.length * (fps - fov)) ++ [x]
        = (l ++ [x]).drop (windowCount fps fov l.length * (fps - fov)) :=
      (List.drop_append_of_le_length hk_le).symm
    by_cases hemit : fps ≤ l.length - windowCount fps fov l.length * (fps - fov) + 1
    · -- the buffer reaches fps chunks: a window is emitted
      rw [if_pos hemit]
      obtain ⟨hwc, hlen⟩ := wc_succ_emit fps fov l.length h1 h2 (by omega)
      simp only [Nat.zero_add]
      rw [hwc]
      have hmaps : ∀ j, j < windowCount fps fov l.length →
          ((l ++ [x]).drop (j * (fps - fov))).take fps = (l.drop (j * (fps - fov))).take fps := by
        intro j hj
        have hin := wc_window_inside fps fov l.length h2 j hj
        rw [List.drop_append_of_le_length (by omega)]
        rw [List.take_append_of_le_length (by simp; omega)]
      refine SegState.mk.injEq _ _ _ _ _ _ _ _ ▸ ⟨?_, ?_, ?_, ?_⟩
      · -- frames
        rw [hframes, List.drop_drop]
        congr 1
        have : (windowCount fps fov l.length + 1) * (fps - fov)
            = windowCount fps fov l.length * (fps - fov) + (fps - fov) := by ring
        omega
      · rfl
      · rfl
      · -- emitted
        rw [List.range_succ, List.map_append]
        congr 1
        · apply List.map_congr_left
          intro j hj
          exact (hmaps j (List.mem_range.mp hj)).symm
        · simp only [List.map_cons, List.map_nil]
          congr 1
          rw [hframes]
    · -- no emission: the chunk is just buffered
      rw [if_neg hemit]
      have hwc := wc_succ_no_emit fps fov l.length h1 h2 (by omega)
      simp only [Nat.zero_add]
      rw [hwc]
      have hmaps : ∀ j, j < windowCount fps fov l.length →
          ((l ++ [x]).drop (j * (fps - fov))).take fps = (l.drop (j * (fps - fov))).take fps := by
        intro j hj
        have hin := wc_window_inside fps fov l.length h2 j hj
        rw [List.drop_append_of_le_length (by omega)]
        rw [List.take_append_of_le_length (by simp; omega)]
      refine SegState.mk.injEq _ _ _ _ _ _ _ _ ▸ ⟨?_, ?_, ?_, ?_⟩
      · rw [hframes]
      · rfl
      · rfl
      · apply List.map_congr_left
        intro j hj
        exact (hmaps j (List.mem_range.mp hj)).symm

/-- C5: for every feed sequence, the `i`-th emitted window's first
`frames_for_overlap` chunks (the code's realisation of "`overlap_length`
seconds of audio": `int(RATE*5/CHUNK) = 78` chunks) are exactly the last
`frames_for_overlap` chunks of the `(i-1)`-th emitted window, because the
segmenter keeps the trailing slice `frames[frames_per_segment -
frames_for_overlap:]` of its buffer as the start of the next window. -/
theorem window_overlap_invariant {α : Type} (l : List α) (i : Nat) (h1 : 1 ≤ i)
    (h2 : i < (runRecord (framesPerSegment 10) (framesForOverlap 5) l).emitted.length) :
    ((runRecord (framesPerSegment 10) (framesForOverlap 5) l).emitted.getD i []).take
        (framesForOverlap 5) =
      ((runRecord (framesPerSegment 10) (framesForOverlap 5) l).emitted.getD (i - 1) []).drop
        (framesPerSegment 10 - framesForOverlap 5) := by
  rw [show framesPerSegment 10 = 156 from rfl, show framesForOverlap 5 = 78 from rfl] at h2 ⊢
  rw [runRecord_eq 156 78 (by omega) (by omega)] at h2 ⊢
  simp only [List.length_map, List.length_range] at h2
  rw [List.getD_eq_getElem _ _ (by simp; omega), List.getD_eq_getElem _ _ (by simp; omega)]
  simp only [List.getElem_map, List.getElem_range]
  rw [List.take_take, List.drop_take, List.drop_drop]
  norm_num
  have harg : (i - 1) * 78 + 78 = i * 78 := by omega
  rw [harg]

/-- Witness for `window_overlap_invariant` at a concrete feed of 234
chunks (two emitted windows) and `i = 1`. -/
theorem window_overlap_invariant_witness :
    ((runRecord (framesPerSegment 10) (framesForOverlap 5) (List.range 234)).emitted.getD 1
        []).take (framesForOverlap 5) =
      ((runRecord (framesPerSegment 10) (framesForOverlap 5) (List.range 234)).emitted.getD 0
        []).drop (framesPerSegment 10 - framesForOverlap 5) := by
  have h2 : 1 < (runRecord (framesPerSegment 10) (framesForOverlap 5)
      (List.range 234)).emitted.length := by
    rw [show framesPerSegment 10 = 156 from rfl, show framesForOverlap 5 = 78 from rfl]
    rw [runRecord_eq 156 78 (by omega) (by omega)]
    simp [windowCount]
  exact window_overlap_invariant (List.range 234) 1 (by omega) h2

/-- C7 counterexample: with `window_length = 10 s` and `overlap_length = 5 s`
(`frames_per_segment = 156` chunks, `frames_for_overlap = 78` chunks), a
feed of exactly 23 seconds of audio delivers 359 full 1024-sample chunks
(`23 * 16000 / 1024 = 359.375`, and the trailing partial chunk never
completes a `stream.read`), and the segmenter emits **3** windows during
recording, not 2: the buffer reaches 156 chunks at 9.98 s, 14.98 s and
19.97 s, all before the 23 s mark. -/
theorem segmenter_23s_counterexample :
    (runRecord (framesPerSegment 10) (framesForOverlap 5) (List.range 359)).emitted.length = 3 ∧
    (runRecord (framesPerSegment 10) (framesForOverlap 5) (List.range 359)).emitted.length ≠ 2 := by
  have h : (runRecord (framesPerSegment 10) (framesForOverlap 5)
      (List.range 359)).emitted.length = 3 := by
    rw [show framesPerSegment 10 = 156 from rfl, show framesForOverlap 5 = 78 from rfl]
    rw [runRecord_eq 156 78 (by omega) (by omega)]
    simp [windowCount]
  exact ⟨h, by omega⟩

/-- C7 as amended: a 23-second feed (359 or 360 full chunks) produces
exactly three full windows, covering chunks `[0,156)`, `[78,234)` and
`[156,312)` — approximately seconds 0–10, 5–15 and 10–20. -/
theorem segmenter_23s_three_windows {α : Type} (l : List α)
    (h : l.length = 359 ∨ l.length = 360) :
    (runRecord (framesPerSegment 10) (framesForOverlap 5) l).emitted =
      [l.take 156, (l.drop 78).take 156, (l.drop 156).take 156] := by
  rw [show framesPerSegment 10 = 156 from rfl, show framesForOverlap 5 = 78 from rfl]
  rw [runRecord_eq 156 78 (by omega) (by omega)]
  have hk : windowCount 156 78 l.length = 3 := by
    rcases h with h | h <;> rw [h] <;> decide
  rw [hk, show List.range 3 = [0, 1, 2] from rfl]
  norm_num

/-- Witness for `segmenter_23s_three_windows` at the concrete feed
`List.range 359`. -/
theorem segmenter_23s_three_windows_witness :
    (runRecord (framesPerSegment 10) (framesForOverlap 5) (List.range 359)).emitted =
      [(List.range 359).take 156, ((List.range 359).drop 78).take 156,
        ((List.range 359).drop 156).take 156] :=
  segmenter_23s_three_windows (List.range 359) (Or.inl (by simp))

/-- C8: on `stop()` the partial remainder of the buffer (always shorter
than one window) is never emitted: every window emitted during recording
has exactly `frames_per_segment` chunks, the leftover buffer is strictly
shorter than a window, and `stop_recording` emits nothing new — the
trailing audio is captured only in the whole-session file, which is the
entire feed `l`. -/
theorem stop_emits_only_full_windows {α : Type} (l : List α) :
    (∀ seg ∈ (runRecord (framesPerSegment 10) (framesForOverlap 5) l).emitted,
      seg.length = framesPerSegment 10) ∧
    (runRecord (framesPerSegment 10) (framesForOverlap 5) l).frames.length <
      framesPerSegment 10 ∧
    (stop_recording (runRecord (framesPerSegment 10) (framesForOverlap 5) l)).sessionAudio = l ∧
    (stop_recording (runRecord (framesPerSegment 10) (framesForOverlap 5) l)).emittedAfterStop =
      (runRecord (framesPerSegment 10) (framesForOverlap 5) l).emitted := by
  rw [show framesPerSegment 10 = 156 from rfl, show framesForOverlap 5 = 78 from rfl]
  rw [runRecord_eq 156 78 (by omega) (by omega)]
  refine ⟨?_, ?_, rfl, rfl⟩
  · intro seg hseg
    simp only [List.mem_map, List.mem_range] at hseg
    obtain ⟨j, hj, rfl⟩ := hseg
    have hin := wc_window_inside 156 78 l.length (by omega) j hj
    simp only [List.length_take, List.length_drop]
    omega
  · simp only [List.length_drop]
    exact wc_buf_lt 156 78 l.length (by omega) (by omega)

/-- Witness for `stop_emits_only_full_windows`: a 200-chunk feed emits one
window of exactly 156 chunks, and the session file is the whole feed. -/
theorem stop_emits_only_full_windows_witness :
    ((List.range 200).take 156).length = framesPerSegment 10 ∧
    (stop_recording (runRecord (framesPerSegment 10) (framesForOverlap 5)
      (List.range 200))).sessionAudio = List.range 200 := by
  have hmem : (List.range 200).take 156 ∈
      (runRecord (framesPerSegment 10) (framesForOverlap 5) (List.range 200)).emitted := by
    rw [show framesPerSegment 10 = 156 from rfl, show framesForOverlap 5 = 78 from rfl]
    rw [runRecord_eq 156 78 (by omega) (by omega)]
    simp [windowCount]
  exact ⟨(stop_emits_only_full_windows (List.range 200)).1 _ hmem,
    (stop_emits_only_full_windows (List.range 200)).2.2.1⟩

/-! ## ISO-8601 durations (`recording_manager.py`)

`seconds_to_iso_duration` builds strings such as `"PT1H2M3S"` (and
`"P1DT..."` beyond a day); `iso_duration_to_seconds` parses them back with
`re.match(r'PT(?:(\d+)H)?(?:(\d+)M)?(?:(\d+)S)?', ...)`. -/

/-- Decimal value of a digit string, as computed by Python `int(...)` on
the digit groups captured by the regex. -/
def digitsVal (cs : List Char) : Nat :=
  cs.foldl (fun acc c => acc * 10 + (c.toNat - 48)) 0

/-- Most-significant-first decimal digits of `n`; reference definition used
to reason about `Nat.repr`. -/
def natDigits (n : Nat) : List Char :=
  if _h : n < 10 then [Nat.digitChar n]
  else natDigits (n / 10) ++ [Nat.digitChar (n % 10)]
termination_by n
decreasing_by
  exact Nat.div_lt_self (by omega) (by omega)

theorem digitChar_toNat (d : Nat) (h : d < 10) : (Nat.digitChar d).toNat = 48 + d := by
  interval_cases d <;> rfl

theorem digitChar_isDigit (d : Nat) (h : d < 10) : (Nat.digitChar d).isDigit = true := by
  interval_cases d <;> rfl

theorem natDigits_ne_nil (n : Nat) : natDigits n ≠ [] := by
  rw [natDigits]
  split
  · simp
  · simp

theorem natDigits_digits (n : Nat) : ∀ c ∈ natDigits n, c.isDigit = true := by
  induction n using Nat.strong_induction_on with
  | _ n ih =>
    rw [natDigits]
    split
    · next h =>
      intro c hc
      simp only [List.mem_singleton] at hc
      subst hc
      exact digitChar_isDigit n h
    · next h =>
      intro c hc
      rw [List.mem_append] at hc
      rcases hc with hc | hc
      · exact ih (n / 10) (Nat.div_lt_self (by omega) (by omega)) c hc
      · simp only [List.mem_singleton] at hc
        subst hc
        exact digitChar_isDigit (n % 10) (Nat.mod_lt _ (by omega))

theorem digitsVal_append_one (cs : List Char) (c : Char) :
    digitsVal (cs ++ [c]) = digitsVal cs * 10 + (c.toNat - 48) := by
  simp [digitsVal, List.foldl_append]

theorem digitsVal_natDigits (n : Nat) : digitsVal (natDigits n) = n := by
  induction n using Nat.strong_induction_on with
  | _ n ih =>
    rw [natDigits]
    split
    · next h =>
      simp [digitsVal, digitChar_toNat n h]
    · next h =>
      rw [digitsVal_append_one, ih (n / 10) (Nat.div_lt_self (by omega) (by omega)),
        digitChar_toNat (n % 10) (Nat.mod_lt _ (by omega))]
      omega

theorem toDigitsCore_eq : ∀ (fuel n : Nat) (ds : List Char), n < fuel →
    Nat.toDigitsCore 10 fuel n ds = natDigits n ++ ds := by
  intro fuel
  induction fuel with
  | zero => intro n ds h; omega
  | succ fuel ih =>
    intro n ds h
    simp only [Nat.toDigitsCore]
    by_cases h0 : n / 10 = 0
    · rw [if_pos h0, natDigits, dif_pos (by omega : n < 10)]
      have : n % 10 = n := by omega
      rw [this]
      rfl
    · rw [if_neg h0, ih (n / 10) _ (by omega)]
      conv_rhs => rw [natDigits]
      rw [dif_neg (by omega : ¬ n < 10)]
      simp

theorem repr_data (n : Nat) : (Nat.repr n).data = natDigits n := by
  show ((Nat.toDigits 10 n).asString).data = natDigits n
  rw [Nat.toDigits, toDigitsCore_eq (n + 1) n [] (by omega)]
  simp [List.asString]

/-- Model of one optional regex group `(?:(\d+)X)?` of the pattern
`PT(?:(\d+)H)?(?:(\d+)M)?(?:(\d+)S)?` at the current position: with a
backtracking engine the group matches exactly when the maximal digit run
at the position is nonempty and immediately followed by the letter (any
shorter split of `\d+` would leave a digit where the letter is required,
and `\d` never matches the letter itself); `int(...)` of the captured run
is its decimal value.  Unmatched groups consume nothing. -/
def parseGroup (letter : Char) (cs : List Char) : Option Nat × List Char :=
  let ds := cs.takeWhile (fun c => c.isDigit)
  let rest := cs.dropWhile (fun c => c.isDigit)
  if ds = [] then (none, cs)
  else if rest.head? = some letter then (some (digitsVal ds), rest.tail)
  else (none, cs)

/-- The sum `hours * 3600 + minutes * 60 + seconds` computed by
`iso_duration_to_seconds` from the three regex groups, applied after the
mandatory `PT` prefix. -/
def parseTimeChain (rest : List Char) : Nat :=
  ((parseGroup 'H' rest).1.getD 0) * 3600 +
  ((parseGroup 'M' (parseGroup 'H' rest).2).1.getD 0) * 60 +
  ((parseGroup 'S' (parseGroup 'M' (parseGroup 'H' rest).2).2).1.getD 0)

/-- Model of `iso_duration_to_seconds` from `recording_manager.py`:
`if not iso_duration or iso_duration == "PT0S": return 0`, then
`re.match` of the `PT...` pattern (`None` unless the string starts with
`"PT"`, since the rest of the pattern is optional), then the H/M/S sum
with missing groups read as 0. -/
def iso_duration_to_seconds (iso_duration : String) : Nat :=
  if iso_duration = "" ∨ iso_duration = "PT0S" then 0
  else
    match iso_duration.data with
    | 'P' :: 'T' :: rest => parseTimeChain rest
    | _ => 0

/-- Model of `seconds_to_iso_duration` from `recording_manager.py` for a
nonnegative integer input.  `timedelta(seconds=s)` yields `days = s //
86400` and `td.seconds = s % 86400`.  The Python code collects the parts
in lists and joins them; since the `S` part is forced whenever both `H`
and `M` are absent, `time_parts` is never empty and `parts` is never
empty, so the two trailing conditionals always take the nonempty branch
and the construction flattens to the concatenation below. -/
def seconds_to_iso_duration (seconds : Nat) : String :=
  if seconds = 0 then "PT0S"
  else
    let days := seconds / 86400
    let hours := seconds % 86400 / 3600
    let minutes := seconds % 86400 % 3600 / 60
    let secs := seconds % 86400 % 60
    let hPart := if 0 < hours then Nat.repr hours ++ "H" else ""
    let mPart := if 0 < minutes then Nat.repr minutes ++ "M" else ""
    let sPart := if 0 < secs ∨ (hours = 0 ∧ minutes = 0) then Nat.repr secs ++ "S" else ""
    let dPart := if 0 < days then Nat.repr days ++ "D" else ""
    "P" ++ dPart ++ "T" ++ hPart ++ mPart ++ sPart

theorem takeWhile_digits (ds : List Char) (c : Char) (rest : List Char)
    (hds : ∀ x ∈ ds, x.isDigit = true) (hc : c.isDigit = false) :
    (ds ++ c :: rest).takeWhile (fun x => x.isDigit) = ds ∧
    (ds ++ c :: rest).dropWhile (fun x => x.isDigit) = c :: rest := by
  induction ds with
  | nil =>
    simp [List.takeWhile_cons, List.dropWhile_cons, hc]
  | cons d ds ih =>
    have hd : d.isDigit = true := hds d (by simp)
    have ih' := ih (fun x hx => hds x (List.mem_cons_of_mem _ hx))
    simp [List.takeWhile_cons, List.dropWhile_cons, hd, ih'.1, ih'.2]

theorem parseGroup_hit (letter : Char) (n : Nat) (rest : List Char)
    (hl : letter.isDigit = false) :
    parseGroup letter (natDigits n ++ letter :: rest) = (some n, rest) := by
  obtain ⟨ht, hd⟩ := takeWhile_digits (natDigits n) letter rest (natDigits_digits n) hl
  simp only [parseGroup, ht, hd]
  rw [if_neg (natDigits_ne_nil n)]
  simp [digitsVal_natDigits]

theorem parseGroup_miss (letter c' : Char) (n : Nat) (rest : List Char)
    (hl : c'.isDigit = false) (hne : c' ≠ letter) :
    parseGroup letter (natDigits n ++ c' :: rest) = (none, natDigits n ++ c' :: rest) := by
  obtain ⟨ht, hd⟩ := takeWhile_digits (natDigits n) c' rest (natDigits_digits n) hl
  simp only [parseGroup, ht, hd]
  rw [if_neg (natDigits_ne_nil n)]
  simp [hne]

theorem parseGroup_nil (letter : Char) : parseGroup letter [] = (none, []) := rfl

theorem parseTimeChain_eq (hours minutes secs : Nat) :
    parseTimeChain
      ((if 0 < hours then natDigits hours ++ ['H'] else []) ++
       ((if 0 < minutes then natDigits minutes ++ ['M'] else []) ++
        (if 0 < secs ∨ (hours = 0 ∧ minutes = 0) then natDigits secs ++ ['S'] else []))) =
      hours * 3600 + minutes * 60 + secs := by
  by_cases hh : 0 < hours <;> by_cases hm : 0 < minutes <;>
    by_cases hs : 0 < secs ∨ (hours = 0 ∧ minutes = 0)
  all_goals simp only [if_pos, if_neg, hh, hm, hs, if_true, if_false,
    List.nil_append, List.append_nil, ite_true, ite_false]
  all_goals simp only [parseTimeChain, List.append_assoc, List.cons_append, List.nil_append]
  -- case analysis on which parts are present
  · -- H, M, S all present
    rw [parseGroup_hit 'H' hours _ (by decide)]
    rw [parseGroup_hit 'M' minutes _ (by decide)]
    rw [parseGroup_hit 'S' secs _ (by decide)]
    simp
  · -- H, M present, S absent (secs = 0)
    rw [parseGroup_hit 'H' hours _ (by decide)]
    rw [show (natDigits minutes ++ ['M'] : List Char) = natDigits minutes ++ 'M' :: [] from rfl]
    rw [parseGroup_hit 'M' minutes _ (by decide)]
    rw [parseGroup_nil]
    simp
    omega
  · -- H present, M absent, S present
    rw [parseGroup_hit 'H' hours _ (by decide)]
    rw [parseGroup_miss 'M' 'S' secs _ (by decide) (by decide)]
    rw [parseGroup_hit 'S' secs _ (by decide)]
    simp
    omega
  · -- H present, M absent, S absent: impossible unless secs = 0; tail empty
    rw [show (natDigits hours ++ ['H'] : List Char) = natDigits hours ++ 'H' :: [] from rfl]
    rw [parseGroup_hit 'H' hours _ (by decide)]
    rw [parseGroup_nil, parseGroup_nil]
    simp
    omega
  · -- H absent, M present, S present
    rw [parseGroup_miss 'H' 'M' minutes _ (by decide) (by decide)]
    rw [parseGroup_hit 'M' minutes _ (by decide)]
    rw [parseGroup_hit 'S' secs _ (by decide)]
    simp
    omega
  · -- H absent, M present, S absent
    rw [show (natDigits minutes ++ ['M'] : List Char) = natDigits minutes ++ 'M' :: [] from rfl]
    rw [parseGroup_miss 'H' 'M' minutes _ (by decide) (by decide)]
    rw [parseGroup_hit 'M' minutes _ (by decide)]
    rw [parseGroup_nil]
    simp
    omega
  · -- H absent, M absent, S present
    rw [show (natDigits secs ++ ['S'] : List Char) = natDigits secs ++ 'S' :: [] from rfl]
    rw [parseGroup_miss 'H' 'S' secs _ (by decide) (by decide)]
    rw [parseGroup_miss 'M' 'S' secs _ (by decide) (by decide)]
    rw [parseGroup_hit 'S' secs _ (by decide)]
    simp
    omega
  · -- H absent, M absent, S absent: impossible (S is forced)
    exfalso
    omega

theorem iso_data_pos (s : Nat) (h0 : 0 < s) (h1 : s < 86400) :
    (seconds_to_iso_duration s).data =
      'P' :: 'T' ::
        ((if 0 < s / 3600 then natDigits (s / 3600) ++ ['H'] else []) ++
         ((if 0 < s % 3600 / 60 then natDigits (s % 3600 / 60) ++ ['M'] else []) ++
          (if 0 < s % 60 ∨ (s / 3600 = 0 ∧ s % 3600 / 60 = 0) then natDigits (s % 60) ++ ['S']
           else []))) := by
  simp only [seconds_to_iso_duration, if_neg (by omega : ¬ s = 0)]
  have e1 : s % 86400 = s := by omega
  have e2 : s / 86400 = 0 := by omega
  rw [e1, e2, if_neg (by omega : ¬ (0 : Nat) < 0)]
  simp only [data_append, apply_ite String.data, repr_data,
    show ("P" : String).data = ['P'] from rfl,
    show ("H" : String).data = ['H'] from rfl,
    show ("M" : String).data = ['M'] from rfl,
    show ("S" : String).data = ['S'] from rfl,
    show ("T" : String).data = ['T'] from rfl,
    show ("" : String).data = [] from rfl]
  simp [List.append_assoc]

theorem iso_data_ge (s : Nat) (h1 : 86400 ≤ s) :
    ∃ tail, (seconds_to_iso_duration s).data = 'P' :: (natDigits (s / 86400) ++ tail) := by
  simp only [seconds_to_iso_duration, if_neg (by omega : ¬ s = 0)]
  rw [if_pos (by omega : 0 < s / 86400)]
  simp only [data_append, apply_ite String.data, repr_data,
    show ("P" : String).data = ['P'] from rfl,
    show ("H" : String).data = ['H'] from rfl,
    show ("M" : String).data = ['M'] from rfl,
    show ("S" : String).data = ['S'] from rfl,
    show ("T" : String).data = ['T'] from rfl,
    show ("D" : String).data = ['D'] from rfl,
    show ("" : String).data = [] from rfl]
  simp only [List.cons_append, List.append_assoc]
  exact ⟨_, rfl⟩


/-- C10: for every integer `0 ≤ s < 86400` the duration helpers round-trip
(`iso_duration_to_seconds (seconds_to_iso_duration s) = s`); for
`s ≥ 86400` the emitted string carries a day component (`"P<d>DT..."`),
which the parser's `PT`-anchored regex rejects, so the round-trip returns
`0` and is not the identity. -/
theorem iso_duration_roundtrip (s : Nat) :
    (s < 86400 → iso_duration_to_seconds (seconds_to_iso_duration s) = s) ∧
    (86400 ≤ s → iso_duration_to_seconds (seconds_to_iso_duration s) = 0 ∧
      iso_duration_to_seconds (seconds_to_iso_duration s) ≠ s) := by
  constructor
  · intro h1
    by_cases h0 : s = 0
    · subst h0; rfl
    · have hkey : ∃ R, (seconds_to_iso_duration s).data = 'P' :: 'T' :: R ∧
          parseTimeChain R = s := by
        refine ⟨_, iso_data_pos s (by omega) h1, ?_⟩
        rw [parseTimeChain_eq (s / 3600) (s % 3600 / 60) (s % 60)]
        omega
      obtain ⟨R, hdata, hval⟩ := hkey
      have hne : seconds_to_iso_duration s ≠ "" := by
        simp [string_ne_empty_iff, hdata]
      have hne2 : seconds_to_iso_duration s ≠ "PT0S" := by
        intro heq
        have hdd : (seconds_to_iso_duration s).data = ['P', 'T', '0', 'S'] := by rw [heq]
        rw [hdata] at hdd
        simp only [List.cons.injEq] at hdd
        rw [hdd.2.2] at hval
        have hpc : parseTimeChain ['0', 'S'] = 0 := by decide
        omega
      have hcond : ¬ (seconds_to_iso_duration s = "" ∨ seconds_to_iso_duration s = "PT0S") := by
        rintro (h | h)
        · exact hne h
        · exact hne2 h
      have hred : iso_duration_to_seconds (seconds_to_iso_duration s) = parseTimeChain R := by
        simp only [iso_duration_to_seconds]
        rw [if_neg hcond]
        split
        · rename_i rest heq
          rw [hdata] at heq
          simp only [List.cons.injEq] at heq
          rw [heq.2.2]
        · rename_i hno
          exact (hno _ hdata).elim
      rw [hred, hval]
  · intro h1
    obtain ⟨tail, hdata⟩ := iso_data_ge s h1
    obtain ⟨d, ds, hds⟩ : ∃ d ds, natDigits (s / 86400) = d :: ds := by
      cases hcase : natDigits (s / 86400) with
      | nil => exact absurd hcase (natDigits_ne_nil _)
      | cons d ds => exact ⟨d, ds, rfl⟩
    rw [hds] at hdata
    rw [List.cons_append] at hdata
    have hd_digit : d.isDigit = true :=
      natDigits_digits (s / 86400) d (by rw [hds]; simp)
    have hdT : d ≠ 'T' := by
      intro h
      rw [h] at hd_digit
      exact absurd hd_digit (by decide)
    have hne : seconds_to_iso_duration s ≠ "" := by
      simp [string_ne_empty_iff, hdata]
    have hne2 : seconds_to_iso_duration s ≠ "PT0S" := by
      intro heq
      have hdd : (seconds_to_iso_duration s).data = ['P', 'T', '0', 'S'] := by rw [heq]
      rw [hdata] at hdd
      simp only [List.cons.injEq] at hdd
      exact hdT hdd.2.1
    have hcond : ¬ (seconds_to_iso_duration s = "" ∨ seconds_to_iso_duration s = "PT0S") := by
      rintro (h | h)
      · exact hne h
      · exact hne2 h
    have hzero : iso_duration_to_seconds (seconds_to_iso_duration s) = 0 := by
      simp only [iso_duration_to_seconds]
      rw [if_neg hcond]
      split
      · rename_i rest heq
        rw [hdata] at heq
        simp only [List.cons.injEq] at heq
        exact absurd heq.2.1 hdT
      · rfl
    exact ⟨hzero, by omega⟩

/-- Witness for `iso_duration_roundtrip`: `3723 s` (`"PT1H2M3S"`) round
trips; `90000 s` (`"P1DT1H"`) parses back to `0`. -/
theorem iso_duration_roundtrip_witness :
    iso_duration_to_seconds (seconds_to_iso_duration 3723) = 3723 ∧
    iso_duration_to_seconds (seconds_to_iso_duration 90000) = 0 :=
  ⟨(iso_duration_roundtrip 3723).1 (by omega),
   ((iso_duration_roundtrip 90000).2 (by omega)).1⟩

/-! ## Combining per-window transcripts (`combine_segment_transcriptions`)

`on_segment_transcribed` writes one `transcription_{segment_num:03d}.txt`
file per window; `combine_segment_transcriptions` lists them with
`sorted(segments_dir.glob("transcription_*.txt"))` — Python path
comparison, i.e. code-point lexicographic order on the file name — reads
and strips each, drops empty texts, folds `remove_overlap` over the rest
and joins with single spaces. -/

/-- Python `f"{n:03d}"`: decimal digits zero-padded to width at least 3. -/
def pad3 (n : Nat) : String :=
  if n < 10 then "00" ++ Nat.repr n
  else if n < 100 then "0" ++ Nat.repr n
  else Nat.repr n

/-- The per-window transcript file name `f"transcription_{n:03d}.txt"`. -/
def transcriptFileName (n : Nat) : String := "transcription_" ++ pad3 n ++ ".txt"

/-- Python string `<` (code-point lexicographic), on character lists. -/
def charListLt : List Char → List Char → Bool
  | [], [] => false
  | [], _ :: _ => true
  | _ :: _, [] => false
  | a :: as, b :: bs =>
    if a.toNat < b.toNat then true
    else if b.toNat < a.toNat then false
    else charListLt as bs

/-- Python string `<=`, the order used by `sorted` on paths in one
directory (compare file names). -/
def pyStrLe (s t : String) : Bool := ! charListLt t.data s.data

/-- Python `str.strip()`: remove leading and trailing whitespace. -/
def pyStrip (s : String) : String :=
  ⟨((s.data.dropWhile Char.isWhitespace).reverse.dropWhile Char.isWhitespace).reverse⟩

/-- Order on (sequence number, content) pairs induced by the transcript
file names: how `sorted(segments_dir.glob(...))` orders the files. -/
def filenameLe (p q : Nat × String) : Prop :=
  pyStrLe (transcriptFileName p.1) (transcriptFileName q.1) = true

instance : DecidableRel filenameLe :=
  fun p q => inferInstanceAs (Decidable (_ = true))

/-- Order on the pairs by sequence number: the order the spec prescribes. -/
def seqLe (p q : Nat × String) : Prop := p.1 ≤ q.1

instance : DecidableRel seqLe := fun p q => inferInstanceAs (Decidable (p.1 ≤ q.1))

/-- The accumulation loop of `combine_segment_transcriptions`: the first
text is taken as-is, each later text is deduplicated against
`combined_texts[-1]` and appended when its stripped form is nonempty. -/
def combineFold (texts : List String) : List String :=
  match texts with
  | [] => []
  | t :: ts => ts.foldl (fun acc text =>
      if pyStrip (remove_overlap acc.getLast! text) ≠ "" then
        acc ++ [remove_overlap acc.getLast! text]
      else acc) [t]

/-- Model of `combine_segment_transcriptions` from `main.py`: `files` are
the per-window transcript files present in `segments/`, as (sequence
number, content) pairs in arbitrary filesystem order.  An empty `files`
models both a missing `segments/` directory and no matching files (the
code returns `""` in both cases); `sorted` is modelled by the stable
`insertionSort` under the file-name order. -/
def combine_segment_transcriptions (files : List (Nat × String)) : String :=
  if files.isEmpty then ""
  else if (((List.insertionSort filenameLe files).map (fun p => pyStrip p.2)).filter
      (fun t => t ≠ "")).isEmpty then ""
  else joinWords (combineFold (((List.insertionSort filenameLe files).map
      (fun p => pyStrip p.2)).filter (fun t => t ≠ "")))

/-- The combining pass as claim C2 states it: identical to
`combine_segment_transcriptions` except that the files are read in
ascending **sequence-number** order. -/
def combineBySeqNum (files : List (Nat × String)) : String :=
  if files.isEmpty then ""
  else if (((List.insertionSort seqLe files).map (fun p => pyStrip p.2)).filter
      (fun t => t ≠ "")).isEmpty then ""
  else joinWords (combineFold (((List.insertionSort seqLe files).map
      (fun p => pyStrip p.2)).filter (fun t => t ≠ "")))

theorem char_toNat_inj (a b : Char) (h : a.toNat = b.toNat) : a = b := by
  cases a with
  | mk av avalid =>
    cases b with
    | mk bv bvalid =>
      simp only [Char.toNat] at h
      congr 1
      cases av; cases bv
      simp only [UInt32.toNat] at h
      congr 1
      exact BitVec.eq_of_toNat_eq h

theorem charListLt_irrefl : ∀ cs, charListLt cs cs = false
  | [] => rfl
  | c :: cs => by
    simp only [charListLt]
    rw [if_neg (by omega), if_neg (by omega)]
    exact charListLt_irrefl cs

theorem charListLt_asymm : ∀ as bs, charListLt as bs = true → charListLt bs as = false := by
  intro as
  induction as with
  | nil =>
    intro bs h
    cases bs with
    | nil => simp [charListLt] at h
    | cons b bs => simp [charListLt]
  | cons a as ih =>
    intro bs h
    cases bs with
    | nil => simp [charListLt] at h
    | cons b bs =>
      simp only [charListLt] at h ⊢
      by_cases h1 : a.toNat < b.toNat
      · rw [if_neg (by omega), if_pos h1]
      · by_cases h2 : b.toNat < a.toNat
        · rw [if_neg h1, if_pos h2] at h
          exact absurd h (by simp)
        · rw [if_neg h1, if_neg h2] at h
          rw [if_neg h2, if_neg h1]
          exact ih bs h

theorem charListLt_trans : ∀ as bs cs, charListLt as bs = true → charListLt bs cs = true →
    charListLt as cs = true := by
  intro as
  induction as with
  | nil =>
    intro bs cs hab hbc
    cases bs with
    | nil => simp [charListLt] at hab
    | cons b bs =>
      cases cs with
      | nil => simp [charListLt] at hbc
      | cons c cs => simp [charListLt]
  | cons a as ih =>
    intro bs cs hab hbc
    cases bs with
    | nil => simp [charListLt] at hab
    | cons b bs =>
      cases cs with
      | nil => simp [charListLt] at hbc
      | cons c cs =>
        simp only [charListLt] at hab hbc ⊢
        by_cases hab1 : a.toNat < b.toNat
        · by_cases hbc1 : b.toNat < c.toNat
          · rw [if_pos (by omega)]
          · by_cases hbc2 : c.toNat < b.toNat
            · rw [if_pos hbc2, if_neg hbc1] at hbc
              exact absurd hbc (by simp)
            · rw [if_pos (by omega)]
        · by_cases hab2 : b.toNat < a.toNat
          · rw [if_pos hab2, if_neg hab1] at hab
            exact absurd hab (by simp)
          · rw [if_neg hab1, if_neg hab2] at hab
            by_cases hbc1 : b.toNat < c.toNat
            · rw [if_pos (by omega)]
            · by_cases hbc2 : c.toNat < b.toNat
              · rw [if_pos hbc2, if_neg hbc1] at hbc
                exact absurd hbc (by simp)
              · rw [if_neg hbc1, if_neg hbc2] at hbc
                rw [if_neg (by omega), if_neg (by omega)]
                exact ih bs cs hab hbc

theorem charListLt_eq_of_neither : ∀ as bs, charListLt as bs = false → charListLt bs as = false →
    as = bs := by
  intro as
  induction as with
  | nil =>
    intro bs hab _
    cases bs with
    | nil => rfl
    | cons b bs => simp [charListLt] at hab
  | cons a as ih =>
    intro bs hab hba
    cases bs with
    | nil => simp [charListLt] at hba
    | cons b bs =>
      simp only [charListLt] at hab hba
      by_cases h1 : a.toNat < b.toNat
      · rw [if_pos h1] at hab
        exact absurd hab (by simp)
      · by_cases h2 : b.toNat < a.toNat
        · rw [if_pos h2] at hba
          exact absurd hba (by simp)
        · rw [if_neg h1, if_neg h2] at hab
          rw [if_neg h2, if_neg h1] at hba
          rw [char_toNat_inj a b (by omega), ih bs hab hba]

theorem charListLt_append_left : ∀ (p u v : List Char),
    charListLt (p ++ u) (p ++ v) = charListLt u v := by
  intro p
  induction p with
  | nil => intro u v; rfl
  | cons c p ih =>
    intro u v
    simp only [List.cons_append, charListLt]
    rw [if_neg (by omega), if_neg (by omega)]
    exact ih u v

theorem charListLt_append_suffix : ∀ (u v s : List Char), u.length = v.length →
    charListLt (u ++ s) (v ++ s) = charListLt u v := by
  intro u
  induction u with
  | nil =>
    intro v s hlen
    cases v with
    | nil => simp [charListLt_irrefl, charListLt]
    | cons b bs => simp at hlen
  | cons a as ih =>
    intro v s hlen
    cases v with
    | nil => simp at hlen
    | cons b bs =>
      simp only [List.cons_append, charListLt]
      by_cases h1 : a.toNat < b.toNat
      · rw [if_pos h1, if_pos h1]
      · by_cases h2 : b.toNat < a.toNat
        · rw [if_neg h1, if_neg h1, if_pos h2, if_pos h2]
        · rw [if_neg h1, if_neg h1, if_neg h2, if_neg h2]
          exact ih bs s (by simpa using hlen)

theorem pad3_data (n : Nat) (h : n < 1000) :
    (pad3 n).data = [Nat.digitChar (n / 100), Nat.digitChar (n / 10 % 10),
      Nat.digitChar (n % 10)] := by
  by_cases h10 : n < 10
  · have e1 : n / 100 = 0 := by omega
    have e2 : n / 10 % 10 = 0 := by omega
    have e3 : n % 10 = n := by omega
    simp only [pad3, if_pos h10, data_append, repr_data, e1, e2, e3]
    rw [natDigits, dif_pos h10]
    rfl
  · by_cases h100 : n < 100
    · have e1 : n / 100 = 0 := by omega
      have e2 : n / 10 % 10 = n / 10 := by omega
      simp only [pad3, if_neg h10, if_pos h100, data_append, repr_data, e1, e2]
      rw [natDigits, dif_neg h10]
      rw [natDigits, dif_pos (show n / 10 < 10 by omega)]
      rfl
    · simp only [pad3, if_neg h10, if_neg h100, repr_data]
      rw [natDigits, dif_neg h10]
      rw [natDigits, dif_neg (show ¬ n / 10 < 10 by omega)]
      rw [natDigits, dif_pos (show n / 10 / 10 < 10 by omega)]
      rw [show n / 10 / 10 = n / 100 by omega]
      rw [show n / 10 % 10 = n / 10 % 10 from rfl]
      rfl

theorem lex3_iff (a b : Nat) (ha : a < 1000) (hb : b < 1000) :
    charListLt
      [Nat.digitChar (a / 100), Nat.digitChar (a / 10 % 10), Nat.digitChar (a % 10)]
      [Nat.digitChar (b / 100), Nat.digitChar (b / 10 % 10), Nat.digitChar (b % 10)] = true ↔
    a < b := by
  simp only [charListLt]
  rw [digitChar_toNat (a / 100) (by omega), digitChar_toNat (b / 100) (by omega),
    digitChar_toNat (a / 10 % 10) (by omega), digitChar_toNat (b / 10 % 10) (by omega),
    digitChar_toNat (a % 10) (by omega), digitChar_toNat (b % 10) (by omega)]
  split_ifs <;> simp_all <;> omega

theorem transcriptFileName_lt_iff (a b : Nat) (ha : a < 1000) (hb : b < 1000) :
    charListLt (transcriptFileName a).data (transcriptFileName b).data = true ↔ a < b := by
  have hda : (transcriptFileName a).data =
      ("transcription_" : String).data ++ ((pad3 a).data ++ (".txt" : String).data) := by
    simp [transcriptFileName, data_append]
  have hdb : (transcriptFileName b).data =
      ("transcription_" : String).data ++ ((pad3 b).data ++ (".txt" : String).data) := by
    simp [transcriptFileName, data_append]
  rw [hda, hdb, charListLt_append_left, pad3_data a ha, pad3_data b hb,
    charListLt_append_suffix _ _ _ (by simp)]
  exact lex3_iff a b ha hb

theorem filenameLe_iff (p q : Nat × String) (hp : p.1 < 1000) (hq : q.1 < 1000) :
    filenameLe p q ↔ p.1 ≤ q.1 := by
  unfold filenameLe pyStrLe
  rw [Bool.not_eq_true']
  constructor
  · intro h
    by_contra hc
    push_neg at hc
    have := (transcriptFileName_lt_iff q.1 p.1 hq hp).mpr hc
    rw [this] at h
    exact absurd h (by simp)
  · intro h
    cases hlt : charListLt (transcriptFileName q.1).data (transcriptFileName p.1).data with
    | false => rfl
    | true =>
      have := (transcriptFileName_lt_iff q.1 p.1 hq hp).mp hlt
      omega

theorem filenameLe_total (p q : Nat × String) : filenameLe p q ∨ filenameLe q p := by
  unfold filenameLe pyStrLe
  by_cases h : charListLt (transcriptFileName q.1).data (transcriptFileName p.1).data = true
  · right
    rw [Bool.not_eq_true', charListLt_asymm _ _ h]
  · left
    rw [Bool.not_eq_true']
    cases hc : charListLt (transcriptFileName q.1).data (transcriptFileName p.1).data with
    | false => rfl
    | true => exact absurd hc h

theorem filenameLe_trans (p q r : Nat × String) (h1 : filenameLe p q) (h2 : filenameLe q r) :
    filenameLe p r := by
  unfold filenameLe pyStrLe at *
  rw [Bool.not_eq_true'] at h1 h2 ⊢
  by_contra hc
  have hrp : charListLt (transcriptFileName r.1).data (transcriptFileName p.1).data = true := by
    cases hx : charListLt (transcriptFileName r.1).data (transcriptFileName p.1).data with
    | false => exact absurd hx hc
    | true => rfl
  by_cases hpq : charListLt (transcriptFileName p.1).data (transcriptFileName q.1).data = true
  · have := charListLt_trans _ _ _ hrp hpq
    rw [this] at h2
    exact absurd h2 (by simp)
  · have heq := charListLt_eq_of_neither _ _ h1 (by
      cases hx : charListLt (transcriptFileName p.1).data (transcriptFileName q.1).data with
      | false => rfl
      | true => exact absurd hx hpq)
    rw [heq] at h2
    rw [h2] at hrp
    exact absurd hrp (by simp)

theorem sortFile_eq_sortSeq (files : List (Nat × String))
    (hdist : files.Pairwise (fun p q => p.1 ≠ q.1))
    (hlt : ∀ p ∈ files, p.1 < 1000) :
    List.insertionSort filenameLe files = List.insertionSort seqLe files := by
  haveI : IsAntisymm (Nat × String) (fun p q => p.1 < q.1 ∨ p = q) := by
    constructor
    intro a b h1 h2
    rcases h1 with h1 | h1
    · rcases h2 with h2 | h2
      · omega
      · exact h2.symm
    · exact h1
  apply List.eq_of_perm_of_sorted (r := fun p q : Nat × String => p.1 < q.1 ∨ p = q)
  · exact (List.perm_insertionSort filenameLe files).trans
      (List.perm_insertionSort seqLe files).symm
  · have hsorted : (List.insertionSort filenameLe files).Pairwise filenameLe := by
      haveI : IsTotal (Nat × String) filenameLe := ⟨filenameLe_total⟩
      haveI : IsTrans (Nat × String) filenameLe := ⟨filenameLe_trans⟩
      exact List.sorted_insertionSort filenameLe files
    have hne : (List.insertionSort filenameLe files).Pairwise (fun p q => p.1 ≠ q.1) :=
      ((List.perm_insertionSort filenameLe files).pairwise_iff
        (fun h' => h'.symm)).mpr hdist
    have hmem : ∀ p ∈ List.insertionSort filenameLe files, p.1 < 1000 :=
      fun p hp => hlt p ((List.perm_insertionSort filenameLe files).subset hp)
    refine List.Pairwise.imp_of_mem ?_ (hsorted.and hne)
    intro a b hma hmb hab
    have hle := (filenameLe_iff a b (hmem a hma) (hmem b hmb)).mp hab.1
    exact Or.inl (by have := hab.2; omega)
  · have hsorted : (List.insertionSort seqLe files).Pairwise seqLe := by
      haveI : IsTotal (Nat × String) seqLe := ⟨fun a b => Nat.le_total a.1 b.1⟩
      haveI : IsTrans (Nat × String) seqLe := ⟨fun a b c h1 h2 => Nat.le_trans h1 h2⟩
      exact List.sorted_insertionSort seqLe files
    have hne : (List.insertionSort seqLe files).Pairwise (fun p q => p.1 ≠ q.1) :=
      ((List.perm_insertionSort seqLe files).pairwise_iff (fun h' => h'.symm)).mpr hdist
    refine List.Pairwise.imp_of_mem ?_ (hsorted.and hne)
    intro a b _ _ hab
    have hle : a.1 ≤ b.1 := hab.1
    exact Or.inl (by have := hab.2; omega)

/-- C2 counterexample: the code sorts transcript files by file **name**
(lexicographically), which departs from sequence-number order once a
recording has 1000 windows: `"transcription_1000.txt"` sorts before
`"transcription_999.txt"`.  With window 999 transcribed as `"a"` and
window 1000 as `"b"`, the code combines them as `"b a"`, while combining
in ascending sequence-number order (as the claim states) yields
`"a b"`. -/
theorem combine_lex_order_counterexample :
    combine_segment_transcriptions [(999, "a"), (1000, "b")] = "b a" ∧
    combineBySeqNum [(999, "a"), (1000, "b")] = "a b" ∧
    combine_segment_transcriptions [(999, "a"), (1000, "b")] ≠
      combineBySeqNum [(999, "a"), (1000, "b")] := by
  refine ⟨by decide, by decide, by decide⟩

/-- C2 as amended: the COMBINING step reads the transcript files in
ascending file-name order, which coincides with ascending sequence-number
order whenever all sequence numbers are below 1000 (the `%03d` padding
width); under that bound (and distinct sequence numbers) the code equals
the sequence-number-driven fold described by the claim: first text as-is,
each later text deduplicated against the most recently appended piece and
appended only if non-empty after stripping, the result depending only on
the files' numbering and contents. -/
theorem combine_seqnum_below_1000 (files : List (Nat × String))
    (hdist : files.Pairwise (fun p q => p.1 ≠ q.1))
    (hlt : ∀ p ∈ files, p.1 < 1000) :
    combine_segment_transcriptions files = combineBySeqNum files := by
  unfold combine_segment_transcriptions combineBySeqNum
  rw [sortFile_eq_sortSeq files hdist hlt]

/-- Witness for `combine_seqnum_below_1000` at a concrete two-file
recording given in reversed filesystem order. -/
theorem combine_seqnum_below_1000_witness :
    combine_segment_transcriptions [(1, "b"), (0, "a")] = combineBySeqNum [(1, "b"), (0, "a")] :=
  combine_seqnum_below_1000 [(1, "b"), (0, "a")] (by decide) (by decide)

/-! ## Finalizer outcome (`finalize_recording`) -/

/-- Effect of `finalize_recording` on the recording: either the whole
recording directory is removed (`shutil.rmtree`, no transcription file
and no JSON metadata written), or the combined text is written as the
final transcription file and into the recording's JSON metadata. -/
inductive FinalizeOutcome
  | deleted
  | persisted (finalTranscription : String)
deriving DecidableEq

/-- Model of `finalize_recording` from `main.py`: combine the per-window
transcripts; `if not final_transcription.strip()` delete the recording
folder and return, otherwise write the combined text as the final
transcript (file and metadata). -/
def finalize_recording (files : List (Nat × String)) : FinalizeOutcome :=
  if pyStrip (combine_segment_transcriptions files) = "" then .deleted
  else .persisted (combine_segment_transcriptions files)

theorem combine_all_empty (files : List (Nat × String))
    (h : ∀ p ∈ files, pyStrip p.2 = "") :
    combine_segment_transcriptions files = "" := by
  unfold combine_segment_transcriptions
  by_cases hf : files.isEmpty
  · rw [if_pos hf]
  · rw [if_neg hf]
    have hseg : (((List.insertionSort filenameLe files).map (fun p => pyStrip p.2)).filter
        (fun t => t ≠ "")) = [] := by
      rw [List.filter_eq_nil_iff]
      intro t ht
      simp only [List.mem_map] at ht
      obtain ⟨p, hp, rfl⟩ := ht
      have hpf : p ∈ files := (List.perm_insertionSort filenameLe files).subset hp
      simp [h p hpf]
    rw [hseg]
    rfl

/-- C4: if the combined transcript strips to the empty string — in
particular when every window transcribed to (whitespace-)empty text — the
Finalizer deletes the whole recording and persists nothing; if it is
non-empty, the recording is kept and the combined text is persisted as
the final transcript. -/
theorem finalize_empty_deletes (files : List (Nat × String)) :
    (pyStrip (combine_segment_transcriptions files) = "" →
      finalize_recording files = .deleted) ∧
    ((∀ p ∈ files, pyStrip p.2 = "") → finalize_recording files = .deleted) ∧
    (pyStrip (combine_segment_transcriptions files) ≠ "" →
      finalize_recording files =
        .persisted (combine_segment_transcriptions files)) := by
  refine ⟨?_, ?_, ?_⟩
  · intro h
    simp [finalize_recording, h]
  · intro h
    have hc := combine_all_empty files h
    simp [finalize_recording, hc]
    rfl
  · intro h
    simp [finalize_recording, h]

/-- Witness for `finalize_empty_deletes`: a recording whose two windows
transcribed to `""` and `" "` is deleted; a recording with one non-empty
window is persisted. -/
theorem finalize_empty_deletes_witness :
    finalize_recording [(0, ""), (1, " ")] = .deleted ∧
    finalize_recording [(0, "hello")] =
      .persisted (combine_segment_transcriptions [(0, "hello")]) :=
  ⟨(finalize_empty_deletes [(0, ""), (1, " ")]).2.1 (by decide),
   (finalize_empty_deletes [(0, "hello")]).2.2 (by decide)⟩

/-! ## Finalizer barrier (`check_and_finalize_recording`) -/

/-- The state read by `check_and_finalize_recording`: the in-memory queue
`self.segments_to_transcribe` (pairs of window file path and sequence
number), the in-memory flag `self.is_transcribing_segment`, and — for
comparison with the claim — the counts of emitted window audio files and
written per-window transcript files on disk, which the code never
consults. -/
structure BarrierState where
  segments_to_transcribe : List (String × Nat)
  is_transcribing_segment : Bool
  windowFilesOnDisk : Nat
  transcriptFilesOnDisk : Nat
deriving DecidableEq

inductive BarrierDecision
  | repoll (delayMs : Nat)
  | finalize
deriving DecidableEq

/-- Model of `check_and_finalize_recording` from `main.py`:
`if self.segments_to_transcribe or self.is_transcribing_segment:
QTimer.singleShot(1000, self.check_and_finalize_recording); return`
else `self.finalize_recording()`. -/
def check_and_finalize_recording (s : BarrierState) : BarrierDecision :=
  if ¬ s.segments_to_transcribe.isEmpty ∨ s.is_transcribing_segment then .repoll 1000
  else .finalize

/-- Modelled from the spec: the WAITING/poll barrier claim C3 describes —
readiness decided by comparing the count of emitted window audio files on
disk with the count of written per-window transcript files on disk, plus
the Worker's idle flag.  (This is what the claim asserts the code does;
the code itself only reads the in-memory queue and flag.) -/
def barrier_spec (s : BarrierState) : BarrierDecision :=
  if s.windowFilesOnDisk ≠ s.transcriptFilesOnDisk ∨ s.is_transcribing_segment then .repoll 1000
  else .finalize

/-- C3 counterexample: after a process restart mid-pipeline the in-memory
queue is empty and the flag is false while the disk still holds one
window audio file without its transcript; the code's barrier finalizes
immediately, whereas the disk-count barrier the claim describes would
re-poll — the decision does not survive a restart. -/
theorem barrier_counterexample :
    check_and_finalize_recording ⟨[], false, 1, 0⟩ = .finalize ∧
    barrier_spec ⟨[], false, 1, 0⟩ = .repoll 1000 ∧
    check_and_finalize_recording ⟨[], false, 1, 0⟩ ≠ barrier_spec ⟨[], false, 1, 0⟩ := by
  refine ⟨by decide, by decide, by decide⟩

/-- C3 as amended: the barrier decides readiness from the **in-memory**
queue `segments_to_transcribe` and the `is_transcribing_segment` flag
only — the decision is independent of any on-disk file counts (so it does
not survive a process restart); any queued window or busy Worker causes a
re-poll after a fixed 1000 ms delay, and an empty queue with an idle
Worker finalizes. -/
theorem barrier_in_memory (s t : BarrierState) :
    (s.segments_to_transcribe = t.segments_to_transcribe →
      s.is_transcribing_segment = t.is_transcribing_segment →
      check_and_finalize_recording s = check_and_finalize_recording t) ∧
    (¬ s.segments_to_transcribe.isEmpty ∨ s.is_transcribing_segment →
      check_and_finalize_recording s = .repoll 1000) ∧
    (s.segments_to_transcribe.isEmpty ∧ ¬ s.is_transcribing_segment →
      check_and_finalize_recording s = .finalize) := by
  refine ⟨?_, ?_, ?_⟩
  · intro h1 h2
    simp [check_and_finalize_recording, h1, h2]
  · intro h
    unfold check_and_finalize_recording
    rw [if_pos h]
  · intro h
    unfold check_and_finalize_recording
    rw [if_neg ?_]
    rintro (hc | hc)
    · exact hc h.1
    · exact h.2 hc

/-- Witness for `barrier_in_memory`: two states agreeing in memory but
with different disk counts get the same decision; a queued window forces
a re-poll; the drained state finalizes. -/
theorem barrier_in_memory_witness :
    check_and_finalize_recording ⟨[], false, 5, 0⟩ =
      check_and_finalize_recording ⟨[], false, 7, 7⟩ ∧
    check_and_finalize_recording ⟨[("w", 0)], false, 1, 1⟩ = .repoll 1000 ∧
    check_and_finalize_recording ⟨[], false, 3, 3⟩ = .finalize :=
  ⟨(barrier_in_memory ⟨[], false, 5, 0⟩ ⟨[], false, 7, 7⟩).1 (by decide) (by decide),
   (barrier_in_memory ⟨[("w", 0)], false, 1, 1⟩ ⟨[], false, 0, 0⟩).2.1 (by decide),
   (barrier_in_memory ⟨[], false, 3, 3⟩ ⟨[], false, 0, 0⟩).2.2 (by decide)⟩

/-! ## Transcription Worker (`transcribe_next_segment`, `on_segment_transcribed`) -/

/-- Result of the `model.transcribe(...)` call inside the worker thread:
either the returned text (`result.get('text', '')`) or a raised
exception. -/
inductive TResult
  | ok (text : String)
  | exn
deriving DecidableEq

/-- Model of the `worker()` body of `transcribe_next_segment`: the text
emitted through `segment_transcribed` for one window, together with
whether the model was called.  `audio = none` models an exception while
opening or reading the window's WAV header (caught, emits `""`);
otherwise `audio = some (frames, rate)` and the duration guard
`frames / float(rate) < 0.1` skips the model call (`rate = 0` raises
`ZeroDivisionError`, also caught).  The float comparison is exact as the
integer test `10 * frames < rate` because the spacing `1/rate` of the
representable rationals dwarfs double rounding error, and equality
`frames/rate = 0.1` yields a correctly rounded double equal to the
double literal `0.1`, for which `<` is false.  A transcription exception
is caught and `""` is emitted; a returned text is stripped. -/
def transcribe_next_worker (audio : Option (Nat × Nat)) (result : TResult) : String × Bool :=
  match audio with
  | none => ("", false)
  | some (frames, rate) =>
    if rate = 0 then ("", false)
    else if 10 * frames < rate then ("", false)
    else
      match result with
      | .exn => ("", true)
      | .ok text => (pyStrip text, true)

/-- Model of the file write in `on_segment_transcribed`: the transcript
file `transcription_{segment_num:03d}.txt` is written with the emitted
text, even when the text is empty. -/
def on_segment_transcribed (segment_text : String) (segment_num : Nat) : String × String :=
  (transcriptFileName segment_num, segment_text)

/-- One window's full pass through the Worker: transcribe (or fail, or
skip) and persist the per-window transcript file. -/
def process_window (audio : Option (Nat × Nat)) (result : TResult) (segment_num : Nat) :
    String × String :=
  on_segment_transcribed (transcribe_next_worker audio result).1 segment_num

/-- C6: every processed window gets a transcript file keyed by its
sequence number, whatever happens: audio below the 0.1 s threshold skips
the model call and records `""`; an unreadable window or an exception
during transcription also records `""`; a successful call records the
stripped text.  No window is left without a transcript file. -/
theorem worker_always_writes (audio : Option (Nat × Nat)) (result : TResult) (n : Nat) :
    ((process_window audio result n).1 = transcriptFileName n) ∧
    (∀ frames rate, audio = some (frames, rate) → 0 < rate → 10 * frames < rate →
      transcribe_next_worker audio result = ("", false)) ∧
    (audio = none → transcribe_next_worker audio result = ("", false)) ∧
    (result = .exn → (transcribe_next_worker audio result).1 = "") ∧
    (∀ text frames rate, result = .ok text → audio = some (frames, rate) →
      0 < rate → ¬ 10 * frames < rate →
      transcribe_next_worker audio result = (pyStrip text, true)) := by
  refine ⟨rfl, ?_, ?_, ?_, ?_⟩
  · intro frames rate ha hr hshort
    subst ha
    have hrr : ¬ rate = 0 := by omega
    simp [transcribe_next_worker, hshort, hrr]
  · intro ha
    subst ha
    rfl
  · intro hres
    subst hres
    cases audio with
    | none => rfl
    | some fr =>
      obtain ⟨frames, rate⟩ := fr
      simp only [transcribe_next_worker]
      split_ifs <;> rfl
  · intro text frames rate hres ha hr hlong
    subst hres
    subst ha
    have hrr : ¬ rate = 0 := by omega
    simp [transcribe_next_worker, hlong, hrr]

/-- Witness for `worker_always_writes`: a 0.05 s window (800 frames at
16 kHz) skips the model and records `""`; a failing transcription records
`""`; a successful one records the stripped text; the file is always
keyed by the sequence number. -/
theorem worker_always_writes_witness :
    (process_window (some (800, 16000)) (.ok "hi") 7).1 = transcriptFileName 7 ∧
    transcribe_next_worker (some (800, 16000)) (.ok "hi") = ("", false) ∧
    (transcribe_next_worker (some (16000, 16000)) .exn).1 = "" ∧
    transcribe_next_worker (some (16000, 16000)) (.ok " hi ") = (pyStrip " hi ", true) :=
  ⟨(worker_always_writes (some (800, 16000)) (.ok "hi") 7).1,
   (worker_always_writes (some (800, 16000)) (.ok "hi") 7).2.1 800 16000 rfl (by omega)
     (by omega),
   (worker_always_writes (some (16000, 16000)) .exn 0).2.2.2.1 rfl,
   (worker_always_writes (some (16000, 16000)) (.ok " hi ") 0).2.2.2.2 " hi " 16000 16000 rfl
     rfl (by omega) (by omega)⟩

/-! ## Worker scheduling around model loading (C9)

Event model of the handlers that move windows through the Worker:
`on_segment_ready` (a window file was emitted), `on_segment_transcribed`
(the worker thread finished one window), `on_model_loaded` (the load
thread finished; the handler updates UI state and the whole-file
`pending_transcription` path but never touches the segment queue), and
one poll of `check_and_finalize_recording` while work is pending (which
only re-arms its timer). -/

/-- The segment-worker state of `TranscriptionApp`:
`segments_to_transcribe` (sequence numbers queued), the
`is_transcribing_segment` flag, the window currently inside the worker
thread, whether the selected model is in `loaded_models`, and the windows
whose transcript files were written, in completion order. -/
structure WorkerState where
  queue : List Nat
  transcribing : Bool
  current : Option Nat
  loaded : Bool
  processed : List Nat
deriving DecidableEq

/-- Model of `transcribe_next_segment`: with an empty queue, clear the
flag; with the model not yet loaded, clear the flag and leave the queue
untouched (the deferral); otherwise pop the head window and start the
worker thread on it. -/
def transcribe_next_segment (s : WorkerState) : WorkerState :=
  match s.queue with
  | [] => { s with transcribing := false }
  | n :: rest =>
    if s.loaded then { s with transcribing := true, current := some n, queue := rest }
    else { s with transcribing := false }

inductive WorkerEv
  | segmentReady (n : Nat)
  | workerDone
  | modelLoaded
  | poll
deriving DecidableEq

/-- The event handlers: `on_segment_ready` appends to the queue and calls
`transcribe_next_segment` when the flag is clear; the worker's completion
(`on_segment_transcribed`) writes the window's transcript, clears the
flag and calls `transcribe_next_segment`; `on_model_loaded` records the
model as loaded and starts nothing on the segment path; a pending-state
poll of `check_and_finalize_recording` changes nothing. -/
def workerStep : WorkerEv → WorkerState → WorkerState
  | .segmentReady n, s =>
    if s.transcribing = false then transcribe_next_segment { s with queue := s.queue ++ [n] }
    else { s with queue := s.queue ++ [n] }
  | .workerDone, s =>
    match s.current with
    | some n => transcribe_next_segment
        { s with processed := s.processed ++ [n], transcribing := false, current := none }
    | none => s
  | .modelLoaded, s => { s with loaded := true }
  | .poll, s => s

def runWorker (evs : List WorkerEv) (s : WorkerState) : WorkerState :=
  evs.foldl (fun s e => workerStep e s) s

/-- The state at application start. -/
def initWorker : WorkerState := ⟨[], false, none, false, []⟩

/-- C9 counterexample: a window becomes ready before the model is loaded
(it is deferred, staying queued), then the model load succeeds — and the
resulting state is a fixpoint of both the finalize poll and further
load notifications, with the window still queued and no transcript
written.  In the execution that continues with polls only (recording
already stopped, no further windows), the window queued before the load
finished is never transcribed, refuting the claim that it eventually is
in every execution where the load succeeds. -/
theorem model_load_no_retry_counterexample :
    (runWorker [.segmentReady 0, .modelLoaded] initWorker).queue = [0] ∧
    (runWorker [.segmentReady 0, .modelLoaded] initWorker).loaded = true ∧
    (runWorker [.segmentReady 0, .modelLoaded] initWorker).processed = [] ∧
    (runWorker [.segmentReady 0, .modelLoaded] initWorker).transcribing = false ∧
    workerStep .poll (runWorker [.segmentReady 0, .modelLoaded] initWorker) =
      runWorker [.segmentReady 0, .modelLoaded] initWorker ∧
    workerStep .modelLoaded (runWorker [.segmentReady 0, .modelLoaded] initWorker) =
      runWorker [.segmentReady 0, .modelLoaded] initWorker := by
  refine ⟨by decide, by decide, by decide, by decide, by decide, by decide⟩

/-- C9 as amended: a window arriving while the model is not loaded is
deferred and stays queued; completion of the model load itself starts no
transcription; a deferred window is picked up by the **next**
`segmentReady` or `workerDone` event that runs `transcribe_next_segment`
after the load has finished — and a run consisting only of polls changes
nothing, so with no such later event the queued windows are never
transcribed. -/
theorem worker_defer_and_retry (s : WorkerState) (n : Nat) :
    (s.loaded = false → s.transcribing = false →
      workerStep (.segmentReady n) s =
        { s with queue := s.queue ++ [n], transcribing := false }) ∧
    (workerStep .modelLoaded s = { s with loaded := true }) ∧
    (s.loaded = true → s.transcribing = false →
      workerStep (.segmentReady n) s =
        { s with queue := (s.queue ++ [n]).tail, transcribing := true,
                 current := (s.queue ++ [n]).head? }) ∧
    (∀ evs, (∀ e ∈ evs, e = .poll) → runWorker evs s = s) := by
  obtain ⟨q, tr, cur, ld, pr⟩ := s
  refine ⟨?_, rfl, ?_, ?_⟩
  · intro hl ht
    simp only at hl ht
    subst hl
    subst ht
    cases q <;> rfl
  · intro hl ht
    simp only at hl ht
    subst hl
    subst ht
    cases q <;> rfl
  · intro evs hevs
    induction evs with
    | nil => rfl
    | cons e evs ih =>
      have he : e = .poll := hevs e (by simp)
      subst he
      show runWorker evs (workerStep .poll _) = _
      exact ih (fun e' he' => hevs e' (List.mem_cons_of_mem _ he'))

/-- Witness for `worker_defer_and_retry`: from a state with window 5
queued, model unloaded and worker idle, window 7 is deferred behind it;
once loaded, the next arrival pops window 5; polls alone change
nothing. -/
theorem worker_defer_and_retry_witness :
    workerStep (.segmentReady 7) ⟨[5], false, none, false, []⟩ =
      ⟨[5, 7], false, none, false, []⟩ ∧
    workerStep (.segmentReady 7) ⟨[5], false, none, true, []⟩ =
      ⟨[7], true, some 5, true, []⟩ ∧
    runWorker [.poll, .poll] ⟨[5], false, none, false, []⟩ = ⟨[5], false, none, false, []⟩ := by
  refine ⟨?_, ?_, ?_⟩
  · exact (worker_defer_and_retry ⟨[5], false, none, false, []⟩ 7).1 rfl rfl
  · exact (worker_defer_and_retry ⟨[5], false, none, true, []⟩ 7).2.2.1 rfl rfl
  · exact (worker_defer_and_retry ⟨[5], false, none, false, []⟩ 7).2.2.2 [.poll, .poll]
      (by decide)
